import Mathlib

/-!
Verification development for the pynorad UFO object model
(`pynorad/__init__.py`).  The Python layer wraps a Rust core
(`PyFont`, `PyGlyph`, …) and the fontTools pens; geometry, margins and the
editing algebra visible in `pynorad/__init__.py` are embedded directly,
while operations implemented only in the missing Rust core are modelled
from the specification and say so in their doc comments.

Coordinates are embedded as rationals: the Python code computes with IEEE
floats, but every property checked here uses exact equality on small
dyadic values, where float and rational arithmetic agree.
-/

/-- Represents a bounding box as a tuple of `(xMin, yMin, xMax, yMax)`
(class `BoundingBox` in the source). -/
structure BoundingBox where
  xMin : ℚ
  yMin : ℚ
  xMax : ℚ
  yMax : ℚ
deriving DecidableEq, Repr

/-- A 2×3 affine transform `(xx, xy, yx, yy, dx, dy)`, as in
`fontTools.misc.transform.Transform`. -/
structure Affine where
  xx : ℚ
  xy : ℚ
  yx : ℚ
  yy : ℚ
  dx : ℚ
  dy : ℚ
deriving DecidableEq, Repr

/-- Source `Transform.transformPoint`: `(x, y) ↦ (xx*x + yx*y + dx, xy*x + yy*y + dy)`. -/
def Affine.apply (t : Affine) (p : ℚ × ℚ) : ℚ × ℚ :=
  (t.xx * p.1 + t.yx * p.2 + t.dx, t.xy * p.1 + t.yy * p.2 + t.dy)

/-- The identity transform, the default `transformation` of a component. -/
def Affine.idA : Affine := ⟨1, 0, 0, 1, 0, 0⟩

/-- A pure translation `(1, 0, 0, 1, dx, dy)`. -/
def Affine.translation (dx dy : ℚ) : Affine := ⟨1, 0, 0, 1, dx, dy⟩

/-- Matrix composition: `(t.comp u).apply p = t.apply (u.apply p)`; this is
how nested `TransformPen`s stack when components draw components. -/
def Affine.comp (t u : Affine) : Affine :=
  { xx := t.xx * u.xx + t.yx * u.xy
    xy := t.xy * u.xx + t.yy * u.xy
    yx := t.xx * u.yx + t.yx * u.yy
    yy := t.xy * u.yx + t.yy * u.yy
    dx := t.xx * u.dx + t.yx * u.dy + t.dx
    dy := t.xy * u.dx + t.yy * u.dy + t.dy }

/-- Executable minimum on rationals (kept away from the lattice classes so
that concrete runs reduce inside the kernel). -/
def qmin (a b : ℚ) : ℚ := if a ≤ b then a else b

/-- Executable maximum on rationals. -/
def qmax (a b : ℚ) : ℚ := if a ≤ b then b else a

/-- The running min/max box the bounds pens accumulate over the drawn point
coordinates; `none` when nothing was drawn (an empty drawable has no
bounds, never a degenerate zero box). -/
def box : List (ℚ × ℚ) → Option BoundingBox
  | [] => none
  | p :: ps =>
    some (match box ps with
      | none => ⟨p.1, p.2, p.1, p.2⟩
      | some b => ⟨qmin p.1 b.xMin, qmin p.2 b.yMin, qmax p.1 b.xMax, qmax p.2 b.yMax⟩)

/-- Componentwise translation of a bounding box. -/
def BoundingBox.translate (b : BoundingBox) (dx dy : ℚ) : BoundingBox :=
  ⟨b.xMin + dx, b.yMin + dy, b.xMax + dx, b.yMax + dy⟩

instance {e a : Type} [DecidableEq e] [DecidableEq a] : DecidableEq (Except e a) := fun x y =>
  match x, y with
  | .ok u, .ok v =>
    if h : u = v then .isTrue (by rw [h]) else .isFalse (fun hh => h (Except.ok.inj hh))
  | .error u, .error v =>
    if h : u = v then .isTrue (by rw [h]) else .isFalse (fun hh => h (Except.error.inj hh))
  | .ok _, .error _ => .isFalse (fun hh => Except.noConfusion hh)
  | .error _, .ok _ => .isFalse (fun hh => Except.noConfusion hh)

/-- A point of a contour (`PyPoint`): coordinates, the numeric segment-type
code produced by `encodeSegmentType` (0 move, 1 line, 2 offcurve, 3 curve,
4 qcurve), and the smooth flag. -/
structure PyPoint where
  x : ℚ
  y : ℚ
  typ : Nat
  smooth : Bool := false
deriving DecidableEq, Repr

/-- A contour (`PyContour`): an ordered sequence of points. -/
structure PyContour where
  points : List PyPoint
deriving DecidableEq, Repr

/-- A component (`PyComponent`): a reference to a base glyph by name placed
through an affine transform. -/
structure PyComponent where
  base : String
  transformation : Affine
deriving DecidableEq, Repr

/-- An anchor (`PyAnchor`): a named position.  Anchors are not drawn by the
outline pens, so they never contribute to bounds. -/
structure PyAnchor where
  x : ℚ
  y : ℚ
  name : Option String := none
deriving DecidableEq, Repr

/-- A glyph (`Glyph`/`PyGlyph`): metrics plus owned contours, components and
anchors (guidelines, note, image … are irrelevant to the claims below). -/
structure Glyph where
  name : String
  width : ℚ := 0
  height : ℚ := 0
  verticalOrigin : Option ℚ := none
  contours : List PyContour := []
  components : List PyComponent := []
  anchors : List PyAnchor := []
deriving DecidableEq, Repr

/-- A layer (`Layer`/`PyLayer`): a name-keyed collection of glyphs, embedded
as the insertion-ordered list with name lookup. -/
structure Layer where
  glyphs : List Glyph
deriving DecidableEq, Repr

/-- Source `Layer.__getitem__` without the `KeyError`: `none` when no glyph of that
name is in the layer. -/
def Layer.glyph (l : Layer) (n : String) : Option Glyph :=
  l.glyphs.find? (fun g => g.name == n)

/-- The exceptions the geometry queries can raise, plus two model-level
markers: `cyclicComponentReference` appears in the spec's error taxonomy but
is produced nowhere (the code has no cycle detection), and `fuelExhausted`
marks that the Python recursion of depth larger than the supplied fuel is
still running (on a cyclic graph it never returns). -/
inductive GeomError
  | layerRequired
  | missingGlyph (name : String)
  | cyclicComponentReference
  | fuelExhausted
deriving DecidableEq, Repr

/-- One step of `BasePen.addComponent` for each component in the list:
resolve the base glyph in the layer (`KeyError`/`missingGlyph` when absent,
since `skipMissingComponents = False`) and draw it through the composed
transform via `recur`.  Collects every drawn point coordinate. -/
def drawComps (recur : Affine → Glyph → Except GeomError (List (ℚ × ℚ)))
    (l : Layer) (t : Affine) : List PyComponent → Except GeomError (List (ℚ × ℚ))
  | [] => .ok []
  | c :: rest =>
    match l.glyph c.base with
    | none => .error (.missingGlyph c.base)
    | some bg =>
      match recur (t.comp c.transformation) bg, drawComps recur l t rest with
      | .ok ps, .ok qs => .ok (ps ++ qs)
      | .error e, _ => .error e
      | .ok _, .error e => .error e

/-- All point coordinates a bounds pen sees when a glyph draws itself
(`Glyph.draw` → `drawPoints` → pens): its own contour points through the
ambient transform, then its components resolved in `l`.  `fuel` bounds the
recursion depth; the Python recursion has no such bound. -/
def drawGlyph : Nat → Layer → Affine → Glyph → Except GeomError (List (ℚ × ℚ))
  | 0, _, _, _ => .error .fuelExhausted
  | fuel + 1, l, t, g =>
    match drawComps (fun t2 g2 => drawGlyph fuel l t2 g2) l t g.components with
    | .error e => .error e
    | .ok cps =>
      .ok ((g.contours.flatMap (fun c => c.points.map (fun p => t.apply (p.x, p.y)))) ++ cps)

/-- An empty layer; stands for the `None` glyph set of `BoundsPen(None)`,
which is consulted only when a component is drawn. -/
def noLayer : Layer := ⟨[]⟩

/-- Source `Glyph.getControlBounds`: refuses to work without a layer when the glyph
has components, then runs `ControlBoundsPen`, whose bounds are the running
min/max over every drawn point coordinate.  Faithful for every outline
(the control box includes off-curve points as drawn). -/
def Glyph.getControlBounds (g : Glyph) (layer : Option Layer) (fuel : Nat) :
    Except GeomError (Option BoundingBox) :=
  if layer = none ∧ g.components ≠ [] then .error .layerRequired
  else
    match drawGlyph (fuel + 1) (layer.getD noLayer) Affine.idA g with
    | .error e => .error e
    | .ok ps => .ok (box ps)

/-- Source `Glyph.getBounds`: same guard, then `BoundsPen`.  `BoundsPen` differs
from `ControlBoundsPen` only on curve segments (it solves for on-curve
extrema); for outlines whose points are all on-curve (`move`/`line`) the two
pens coincide, and that is the case this embedding models — every theorem
below constrains `getBounds` values only on such outlines. -/
def Glyph.getBounds (g : Glyph) (layer : Option Layer) (fuel : Nat) :
    Except GeomError (Option BoundingBox) :=
  if layer = none ∧ g.components ≠ [] then .error .layerRequired
  else
    match drawGlyph (fuel + 1) (layer.getD noLayer) Affine.idA g with
    | .error e => .error e
    | .ok ps => .ok (box ps)

/-- Source `Component.getControlBounds`: `layer` is mandatory (`TypeError` /
`layerRequired` when absent); otherwise the component draws its base glyph
through its transform into the pen. -/
def PyComponent.getControlBounds (c : PyComponent) (layer : Option Layer) (fuel : Nat) :
    Except GeomError (Option BoundingBox) :=
  match layer with
  | none => .error .layerRequired
  | some l =>
    match drawComps (fun t2 g2 => drawGlyph (fuel + 1) l t2 g2) l Affine.idA [c] with
    | .error e => .error e
    | .ok ps => .ok (box ps)

/-- Source `Component.getBounds`: identical shape; see `Glyph.getBounds` for the
scope of the tight-bounds model. -/
def PyComponent.getBounds (c : PyComponent) (layer : Option Layer) (fuel : Nat) :
    Except GeomError (Option BoundingBox) :=
  match layer with
  | none => .error .layerRequired
  | some l =>
    match drawComps (fun t2 g2 => drawGlyph (fuel + 1) l t2 g2) l Affine.idA [c] with
    | .error e => .error e
    | .ok ps => .ok (box ps)

/-- Modelled from the spec: `PyGlyph.move` lives in the missing Rust core;
per the spec, shifting "every contour/anchor/component" translates every
contour point, every anchor, and every component's offset by the delta. -/
def Glyph.move (g : Glyph) (dx dy : ℚ) : Glyph :=
  { g with
    contours := g.contours.map
      (fun c => ⟨c.points.map (fun p => { p with x := p.x + dx, y := p.y + dy })⟩),
    anchors := g.anchors.map (fun a => { a with x := a.x + dx, y := a.y + dy }),
    components := g.components.map
      (fun c => { c with transformation :=
        { c.transformation with
            dx := c.transformation.dx + dx, dy := c.transformation.dy + dy } }) }

/-- Source `Glyph.getLeftMargin`: `bounds.xMin`, or `None` without bounds. -/
def Glyph.getLeftMargin (g : Glyph) (layer : Option Layer) (fuel : Nat) :
    Except GeomError (Option ℚ) :=
  match g.getBounds layer fuel with
  | .error e => .error e
  | .ok none => .ok none
  | .ok (some b) => .ok (some b.xMin)

/-- Source `Glyph.setLeftMargin`: when the delta against `bounds.xMin` is nonzero
(Python truthiness of a float), grow `width` by it and shift the whole
glyph horizontally. -/
def Glyph.setLeftMargin (g : Glyph) (value : ℚ) (layer : Option Layer) (fuel : Nat) :
    Except GeomError Glyph :=
  match g.getBounds layer fuel with
  | .error e => .error e
  | .ok none => .ok g
  | .ok (some b) =>
    let diff := value - b.xMin
    if diff ≠ 0 then .ok (({ g with width := g.width + diff }).move diff 0)
    else .ok g

/-- Source `Glyph.getRightMargin`: `width - bounds.xMax`. -/
def Glyph.getRightMargin (g : Glyph) (layer : Option Layer) (fuel : Nat) :
    Except GeomError (Option ℚ) :=
  match g.getBounds layer fuel with
  | .error e => .error e
  | .ok none => .ok none
  | .ok (some b) => .ok (some (g.width - b.xMax))

/-- Source `Glyph.setRightMargin`: unconditionally `width = bounds.xMax + value`;
no point is moved. -/
def Glyph.setRightMargin (g : Glyph) (value : ℚ) (layer : Option Layer) (fuel : Nat) :
    Except GeomError Glyph :=
  match g.getBounds layer fuel with
  | .error e => .error e
  | .ok none => .ok g
  | .ok (some b) => .ok { g with width := b.xMax + value }

/-- Source `Glyph.getBottomMargin`: `bounds.yMin`, shifted by
`verticalOrigin - height` when a vertical origin is set. -/
def Glyph.getBottomMargin (g : Glyph) (layer : Option Layer) (fuel : Nat) :
    Except GeomError (Option ℚ) :=
  match g.getBounds layer fuel with
  | .error e => .error e
  | .ok none => .ok none
  | .ok (some b) =>
    match g.verticalOrigin with
    | none => .ok (some b.yMin)
    | some vo => .ok (some (b.yMin - (vo - g.height)))

/-- Source `Glyph.setBottomMargin`: when `verticalOrigin` is unset it is first
established at the current `height` (even when the delta then turns out to
be zero); the nonzero delta is applied to `height`. -/
def Glyph.setBottomMargin (g : Glyph) (value : ℚ) (layer : Option Layer) (fuel : Nat) :
    Except GeomError Glyph :=
  match g.getBounds layer fuel with
  | .error e => .error e
  | .ok none => .ok g
  | .ok (some b) =>
    match g.verticalOrigin with
    | none =>
      let oldValue := b.yMin
      let g1 := { g with verticalOrigin := some g.height }
      let diff := value - oldValue
      if diff ≠ 0 then .ok { g1 with height := g1.height + diff } else .ok g1
    | some vo =>
      let oldValue := b.yMin - (vo - g.height)
      let diff := value - oldValue
      if diff ≠ 0 then .ok { g with height := g.height + diff } else .ok g

/-- Source `Glyph.getTopMargin`: `(verticalOrigin if set else height) - bounds.yMax`. -/
def Glyph.getTopMargin (g : Glyph) (layer : Option Layer) (fuel : Nat) :
    Except GeomError (Option ℚ) :=
  match g.getBounds layer fuel with
  | .error e => .error e
  | .ok none => .ok none
  | .ok (some b) =>
    match g.verticalOrigin with
    | none => .ok (some (g.height - b.yMax))
    | some vo => .ok (some (vo - b.yMax))

/-- Source `Glyph.setTopMargin`: when the old value differs from the requested one,
re-anchor `verticalOrigin` at `bounds.yMax + value` and apply the delta to
`height`. -/
def Glyph.setTopMargin (g : Glyph) (value : ℚ) (layer : Option Layer) (fuel : Nat) :
    Except GeomError Glyph :=
  match g.getBounds layer fuel with
  | .error e => .error e
  | .ok none => .ok g
  | .ok (some b) =>
    let oldValue :=
      match g.verticalOrigin with
      | none => g.height - b.yMax
      | some vo => vo - b.yMax
    let diff := value - oldValue
    if oldValue ≠ value then
      .ok { g with verticalOrigin := some (b.yMax + value), height := g.height + diff }
    else .ok g

/-- The error of `encodeSegmentType` (`ValueError("Unknown segment type …")`),
the spec's `InvalidSegmentKind`, carrying the offending kind. -/
inductive SegKindError
  | invalidSegmentKind (kind : String)
deriving DecidableEq, Repr

/-- Source `encodeSegmentType`, transcribed clause by clause: `"move" → 0`,
`"line" → 1`, `None → 2` (an off-curve point has no segment type),
`"curve" → 3`, `"qcurve" → 4`, anything else raises. -/
def encodeSegmentType : Option String → Except SegKindError Nat
  | some "move" => .ok 0
  | some "line" => .ok 1
  | none => .ok 2
  | some "curve" => .ok 3
  | some "qcurve" => .ok 4
  | some s => .error (.invalidSegmentKind s)

/-- Source `Point.__init__`: encode the segment type (which can raise), then build
the concrete point. -/
def Point.create (x y : ℚ) (segmentType : Option String) (smooth : Bool) :
    Except SegKindError PyPoint :=
  match encodeSegmentType segmentType with
  | .error e => .error e
  | .ok typ => .ok ⟨x, y, typ, smooth⟩

/-- Source `GlyphPointPen.addPoint`: encode the segment type (which can raise),
then hand the point to the pen, here the list of points of the contour
being built. -/
def GlyphPointPen.addPoint (st : List PyPoint) (pt : ℚ × ℚ)
    (segmentType : Option String) (smooth : Bool) :
    Except SegKindError (List PyPoint) :=
  match encodeSegmentType segmentType with
  | .error e => .error e
  | .ok typ => .ok (st ++ [⟨pt.1, pt.2, typ, smooth⟩])

/-- The errors of the layer editing algebra. -/
inductive RenameError
  | glyphNotFound (name : String)
  | glyphNameCollision (name : String)
deriving DecidableEq, Repr

/-- Whether the layer holds a glyph of this name (`Layer.__contains__`). -/
def Layer.containsName (l : Layer) (n : String) : Bool :=
  (l.glyph n).isSome

/-- Modelled from the spec: `PyLayer.rename_glyph` lives in the missing Rust
core.  Per the spec it fails with `GlyphNotFound` when `old` is absent, with
`GlyphNameCollision` when `new` is present and `overwrite` is false, and
otherwise renames in place (removing any overwritten glyph). -/
def Layer.rename_glyph (l : Layer) (old nw : String) (overwrite : Bool) :
    Except RenameError Layer :=
  if l.containsName old = false then .error (.glyphNotFound old)
  else if l.containsName nw && !overwrite then .error (.glyphNameCollision nw)
  else
    .ok ⟨l.glyphs.filterMap (fun g =>
      if g.name = nw ∧ g.name ≠ old then none
      else if g.name = old then some { g with name := nw }
      else some g)⟩

/-- Source `Layer.renameGlyph`: the Python wrapper only calls the core rename when
the two names differ; `old == new` is a successful no-op. -/
def Layer.renameGlyph (l : Layer) (old nw : String) (overwrite : Bool) :
    Except RenameError Layer :=
  if old ≠ nw then l.rename_glyph old nw overwrite else .ok l

/-- An identifier-bearing object (a guideline, anchor, contour, point or
component as far as the Object Library is concerned): a payload plus the
lazily assigned stable identifier.  Real identifiers are UUID strings; the
model uses naturals drawn from a per-font counter. -/
structure ObjEntity where
  payload : ℚ
  identifier : Option Nat
deriving DecidableEq, Repr

/-- A keyed bag of auxiliary data (the object lib of one object). -/
abbrev Bag : Type := List (String × Nat)

/-- A font as the Object Library sees it: its identifier-bearing objects,
the `public.objectLibs` table mapping identifier to bag, and the supply of
fresh identifiers. -/
structure LibFont where
  entities : List ObjEntity
  objectLibs : List (Nat × Bag)
  nextId : Nat
deriving DecidableEq, Repr

/-- First-match association lookup in the `objectLibs` table. -/
def lookupId : List (Nat × Bag) → Nat → Option Bag
  | [], _ => none
  | e :: rest, n => if e.1 = n then some e.2 else lookupId rest n

/-- First-match lookup in a bag. -/
def lookupKey : Bag → String → Option Nat
  | [], _ => none
  | e :: rest, k => if e.1 = k then some e.2 else lookupKey rest k

/-- Insert or replace a key in a bag (`lib[key] = value`). -/
def insertKV : Bag → String → Nat → Bag
  | [], k, v => [(k, v)]
  | e :: rest, k, v => if e.1 = k then (k, v) :: rest else e :: insertKV rest k v

/-- Modelled from the spec: `font.objectLib(obj)` (Rust core) lazily gives
the object a stable identifier the first time it is asked and materialises
its (possibly empty) entry in the table. -/
def LibFont.objectLibTouch (f : LibFont) (i : Nat) : LibFont :=
  match f.entities[i]? with
  | none => f
  | some ent =>
    match ent.identifier with
    | some n =>
      if (lookupId f.objectLibs n).isSome then f
      else { f with objectLibs := f.objectLibs ++ [(n, [])] }
    | none =>
      { entities := f.entities.set i { ent with identifier := some f.nextId },
        objectLibs := f.objectLibs ++ [(f.nextId, ([] : Bag))],
        nextId := f.nextId + 1 }

/-- Modelled from the spec: writing through the mutable bag returned by
`objectLib` — `font.objectLib(obj)[key] = v`. -/
def LibFont.objectLibPut (f : LibFont) (i : Nat) (k : String) (v : Nat) : LibFont :=
  match (f.objectLibTouch i).entities[i]? with
  | none => f.objectLibTouch i
  | some ent =>
    match ent.identifier with
    | none => f.objectLibTouch i
    | some n =>
      { (f.objectLibTouch i) with objectLibs :=
          ((f.objectLibTouch i).objectLibs.map
            (fun e => if e.1 = n then (e.1, insertKV e.2 k v) else e)) }

/-- Reading one key of one object's lib through the table. -/
def LibFont.objectLibGet (f : LibFont) (i : Nat) (k : String) : Option Nat :=
  match f.entities[i]? with
  | none => none
  | some ent =>
    match ent.identifier with
    | none => none
    | some n =>
      match lookupId f.objectLibs n with
      | none => none
      | some bag => lookupKey bag k

/-- Modelled from the spec: `Font.save` hands the graph to the codec, which
round-trips it faithfully except that object-lib entries with an empty bag
(or whose identifier no longer belongs to any object) are not written into
the persisted table, while the owning object keeps its identifier. -/
def LibFont.save (f : LibFont) : LibFont :=
  { f with objectLibs :=
      f.objectLibs.filter (fun e =>
        !(decide (e.2 = ([] : Bag))) &&
          f.entities.any (fun ent => ent.identifier == some e.1)) }

/-- Modelled from the spec: `load` of a persisted font — the codec
round-trips the already-pruned graph verbatim. -/
def loadFont (f : LibFont) : LibFont := f

/-- The empty font, used as the out-of-range default of store lookups. -/
def LibFont.dflt : LibFont := ⟨[], [], 0⟩

/-- A store of live font objects; a `Font` value in Python is a reference,
embedded as an index into the store. -/
abbrev FontStore : Type := List LibFont

/-- Modelled from the spec: `Font.__deepcopy__` builds a wholly independent
duplicate via the core's `deep_copy` — a fresh object whose owned subtree
and object-lib table are copied value-wise.  Returns the new store and the
reference to the copy. -/
def deepcopyFont (s : FontStore) (i : Nat) : FontStore × Nat :=
  (s ++ [s.getD i LibFont.dflt], s.length)

/-- Mutating the font referenced by `j` in place (any editing operation of
the algebra, abstracted as a function on the font value). -/
def updateFont (s : FontStore) (j : Nat) (f : LibFont → LibFont) : FontStore :=
  s.set j (f (s.getD j LibFont.dflt))

/-- Reading the font referenced by `i`. -/
def FontStore.fontAt (s : FontStore) (i : Nat) : LibFont :=
  s.getD i LibFont.dflt

/-- The glyph `a` of the margin test fixture: a closed rectangle
`(8,0)–(18,20)` of line points, `width = 30`, one anchor `top` at
`(10, 30)`. -/
def glyphA : Glyph :=
  { name := "a", width := 30, height := 0, verticalOrigin := none,
    contours := [⟨[⟨8, 0, 1, false⟩, ⟨18, 0, 1, false⟩, ⟨18, 20, 1, false⟩, ⟨8, 20, 1, false⟩]⟩],
    components := [], anchors := [⟨10, 30, some "top"⟩] }

/-- The state of `glyphA` after `setLeftMargin(10)`: every point and anchor shifted by
`+2`, width grown to `32`. -/
def glyphA2 : Glyph :=
  { name := "a", width := 32, height := 0, verticalOrigin := none,
    contours := [⟨[⟨10, 0, 1, false⟩, ⟨20, 0, 1, false⟩, ⟨20, 20, 1, false⟩, ⟨10, 20, 1, false⟩]⟩],
    components := [], anchors := [⟨12, 30, some "top"⟩] }

/-- The state of `glyphA2` after `setRightMargin(10)`: only the width changes, to `30`. -/
def glyphA3 : Glyph := { glyphA2 with width := 30 }

/-- A glyph with bounds `yMin = 0`, `height = 30` and no vertical origin. -/
def glyphBtm : Glyph :=
  { name := "g", width := 0, height := 30, verticalOrigin := none,
    contours := [⟨[⟨8, 0, 1, false⟩, ⟨18, 12, 1, false⟩]⟩],
    components := [], anchors := [] }

/-- The base glyph of the component-bounds test: control points
`(0,0), (10,10), (10,20), (0,20)` (a cubic segment), control box
`(0, 0, 10, 20)`. -/
def glyphBase : Glyph :=
  { name := "a", width := 0, height := 0, verticalOrigin := none,
    contours := [⟨[⟨0, 0, 1, false⟩, ⟨10, 10, 2, false⟩, ⟨10, 20, 2, false⟩, ⟨0, 20, 3, true⟩]⟩],
    components := [], anchors := [] }

/-- The component of the test: base `a` translated by `(-50, 100)`. -/
def compB : PyComponent := ⟨"a", Affine.translation (-50) 100⟩

/-- A layer holding only the base glyph `a`. -/
def layerBase : Layer := ⟨[glyphBase]⟩

/-- A composite glyph whose only geometry is the component `compB`. -/
def glyphB : Glyph :=
  { name := "b", width := 0, height := 0, verticalOrigin := none,
    contours := [], components := [compB], anchors := [] }

/-- A glyph that references itself through a component. -/
def glyphCyc : Glyph :=
  { name := "a", width := 0, height := 0, verticalOrigin := none,
    contours := [], components := [⟨"a", Affine.idA⟩], anchors := [] }

/-- The layer in which `glyphCyc`'s self-reference resolves. -/
def layerCyc : Layer := ⟨[glyphCyc]⟩

/-- A two-glyph layer for the rename witnesses. -/
def layerAB : Layer :=
  ⟨[{ name := "a", width := 0, height := 0, verticalOrigin := none,
      contours := [], components := [], anchors := [] },
    { name := "b", width := 0, height := 0, verticalOrigin := none,
      contours := [], components := [], anchors := [] }]⟩

/-- A well-formed library font: one object with identifier `7` whose bag is
nonempty, table carrying exactly that bag. -/
def fontW : LibFont := ⟨[⟨5, some 7⟩], [(7, [("com.test.foo", 1)])], 8⟩

/-- A font whose only table entry is an empty bag attached to object
identifier `7` (the state after `objectLib` was accessed and never filled). -/
def fontEmptyBag : LibFont := ⟨[⟨5, some 7⟩], [(7, [])], 8⟩

/-- A one-font store. -/
def storeW : FontStore := [fontW]

def gEmpty : Glyph :=
  { name := "c", width := 0, height := 0, verticalOrigin := none,
    contours := [], components := [], anchors := [] }
theorem Affine.comp_apply (t u : Affine) (p : ℚ × ℚ) :
    (t.comp u).apply p = t.apply (u.apply p) := by
  simp only [Affine.comp, Affine.apply, Prod.mk.injEq]
  exact ⟨by ring, by ring⟩

theorem Affine.idA_comp (u : Affine) : Affine.idA.comp u = u := by
  cases u
  simp only [Affine.comp, Affine.idA, Affine.mk.injEq]
  refine ⟨by ring, by ring, by ring, by ring, by ring, by ring⟩

theorem Affine.comp_idA (t : Affine) : t.comp Affine.idA = t := by
  cases t
  simp only [Affine.comp, Affine.idA, Affine.mk.injEq]
  refine ⟨by ring, by ring, by ring, by ring, by ring, by ring⟩

theorem Affine.comp_assoc (t u v : Affine) :
    (t.comp u).comp v = t.comp (u.comp v) := by
  simp only [Affine.comp, Affine.mk.injEq]
  refine ⟨by ring, by ring, by ring, by ring, by ring, by ring⟩

theorem Affine.idA_apply (p : ℚ × ℚ) : Affine.idA.apply p = p := by
  obtain ⟨a, b⟩ := p
  simp only [Affine.idA, Affine.apply, Prod.mk.injEq]
  exact ⟨by ring, by ring⟩

theorem Affine.translation_apply (dx dy : ℚ) (p : ℚ × ℚ) :
    (Affine.translation dx dy).apply p = (p.1 + dx, p.2 + dy) := by
  simp only [Affine.translation, Affine.apply, Prod.mk.injEq]
  exact ⟨by ring, by ring⟩

theorem qmin_add_right (a b c : ℚ) : qmin (a + c) (b + c) = qmin a b + c := by
  unfold qmin
  by_cases h : a ≤ b
  · rw [if_pos (by linarith), if_pos h]
  · rw [if_neg (by intro hh; exact h (by linarith)), if_neg h]

theorem qmax_add_right (a b c : ℚ) : qmax (a + c) (b + c) = qmax a b + c := by
  unfold qmax
  by_cases h : a ≤ b
  · rw [if_pos (by linarith), if_pos h]
  · rw [if_neg (by intro hh; exact h (by linarith)), if_neg h]

theorem box_translate (dx dy : ℚ) :
    ∀ ps : List (ℚ × ℚ),
      box (ps.map (fun p => (p.1 + dx, p.2 + dy))) =
        (box ps).map (fun b => b.translate dx dy)
  | [] => rfl
  | p :: ps => by
    simp only [List.map_cons, box, box_translate dx dy ps]
    cases box ps with
    | none => rfl
    | some b =>
      simp only [Option.map_some, BoundingBox.translate]
      refine congrArg some ?_
      simp [qmin_add_right, qmax_add_right]

theorem drawComps_cons_none (recur : Affine → Glyph → Except GeomError (List (ℚ × ℚ)))
    (l : Layer) (t : Affine) (c : PyComponent) (rest : List PyComponent)
    (h : l.glyph c.base = none) :
    drawComps recur l t (c :: rest) = .error (.missingGlyph c.base) := by
  simp only [drawComps, h]

theorem drawComps_cons_some (recur : Affine → Glyph → Except GeomError (List (ℚ × ℚ)))
    (l : Layer) (t : Affine) (c : PyComponent) (rest : List PyComponent) (bg : Glyph)
    (h : l.glyph c.base = some bg) :
    drawComps recur l t (c :: rest) =
      match recur (t.comp c.transformation) bg, drawComps recur l t rest with
      | .ok ps, .ok qs => .ok (ps ++ qs)
      | .error e, _ => .error e
      | .ok _, .error e => .error e := by
  simp only [drawComps, h]

theorem drawGlyph_comp (fuel : Nat) :
    (∀ (l : Layer) (t u : Affine) (g : Glyph),
      drawGlyph fuel l (t.comp u) g = (drawGlyph fuel l u g).map (List.map t.apply)) ∧
    (∀ (l : Layer) (t u : Affine) (cs : List PyComponent),
      drawComps (fun t2 g2 => drawGlyph fuel l t2 g2) l (t.comp u) cs =
        (drawComps (fun t2 g2 => drawGlyph fuel l t2 g2) l u cs).map (List.map t.apply)) := by
  induction fuel with
  | zero =>
    refine ⟨fun l t u g => rfl, fun l t u cs => ?_⟩
    induction cs with
    | nil => rfl
    | cons c rest ihrest =>
      simp only [drawComps]
      cases hlk : l.glyph c.base with
      | none => rfl
      | some bg => rfl
  | succ n ih =>
    have hG : ∀ (l : Layer) (t u : Affine) (g : Glyph),
        drawGlyph (n + 1) l (t.comp u) g = (drawGlyph (n + 1) l u g).map (List.map t.apply) := by
      intro l t u g
      simp only [drawGlyph]
      rw [ih.2 l t u g.components]
      cases hdc : drawComps (fun t2 g2 => drawGlyph n l t2 g2) l u g.components with
      | error e => rfl
      | ok cps =>
        simp only [Except.map]
        refine congrArg Except.ok ?_
        rw [List.map_append]
        refine congrArg (· ++ cps.map t.apply) ?_
        simp only [List.flatMap, List.map_flatten, List.map_map]
        refine congrArg List.flatten ?_
        refine congrArg (List.map · g.contours) ?_
        funext c
        simp only [Function.comp, List.map_map]
        refine congrArg (List.map · c.points) ?_
        funext p
        exact Affine.comp_apply t u (p.x, p.y)
    refine ⟨hG, ?_⟩
    intro l t u cs
    induction cs with
    | nil => rfl
    | cons c rest ihrest =>
      cases hlk : l.glyph c.base with
      | none =>
        rw [drawComps_cons_none _ _ _ _ _ hlk, drawComps_cons_none _ _ _ _ _ hlk]
        rfl
      | some bg =>
        rw [drawComps_cons_some _ _ _ _ _ _ hlk, drawComps_cons_some _ _ _ _ _ _ hlk,
          Affine.comp_assoc, hG l t (u.comp c.transformation) bg, ihrest]
        cases drawGlyph (n + 1) l (u.comp c.transformation) bg with
        | error e => rfl
        | ok ps =>
          cases drawComps (fun t2 g2 => drawGlyph (n + 1) l t2 g2) l u rest with
          | error e => rfl
          | ok qs => simp [Except.map, List.map_append]

theorem drawGlyph_transform (fuel : Nat) (l : Layer) (t : Affine) (g : Glyph) :
    drawGlyph fuel l t g = (drawGlyph fuel l Affine.idA g).map (List.map t.apply) := by
  have h := (drawGlyph_comp fuel).1 l t Affine.idA g
  rwa [Affine.comp_idA] at h

/-- C5: for every glyph whose bounds exist, `getLeftMargin` is `bounds.xMin`,
`getRightMargin` is `width - bounds.xMax`, `getTopMargin` is
`(verticalOrigin if set, else height) - bounds.yMax`, and `getBottomMargin`
is `bounds.yMin - (verticalOrigin - height if verticalOrigin is set, else 0)`. -/
theorem C5_margin_getters (g : Glyph) (layer : Option Layer) (fuel : Nat)
    (bb : BoundingBox) (h : g.getBounds layer fuel = .ok (some bb)) :
    g.getLeftMargin layer fuel = .ok (some bb.xMin) ∧
    g.getRightMargin layer fuel = .ok (some (g.width - bb.xMax)) ∧
    g.getTopMargin layer fuel = .ok (some (g.verticalOrigin.getD g.height - bb.yMax)) ∧
    g.getBottomMargin layer fuel =
      .ok (some (bb.yMin -
        (match g.verticalOrigin with | some vo => vo - g.height | none => 0))) := by
  refine ⟨?_, ?_, ?_, ?_⟩
  · simp only [Glyph.getLeftMargin, h]
  · simp only [Glyph.getRightMargin, h]
  · simp only [Glyph.getTopMargin, h]
    cases hvo : g.verticalOrigin <;> simp [hvo, Option.getD]
  · simp only [Glyph.getBottomMargin, h]
    cases hvo : g.verticalOrigin <;> simp [hvo]

theorem C5_margin_getters_witness :
    glyphA.getBounds none 0 = .ok (some ⟨8, 0, 18, 20⟩) ∧
    glyphA.getLeftMargin none 0 = .ok (some 8) ∧
    glyphA.getRightMargin none 0 = .ok (some 12) ∧
    glyphA.getTopMargin none 0 = .ok (some (-20)) ∧
    glyphA.getBottomMargin none 0 = .ok (some 0) := by
  have hb : glyphA.getBounds none 0 = .ok (some ⟨8, 0, 18, 20⟩) := by
    norm_num [glyphA, Glyph.getBounds, drawGlyph, drawComps, box, qmin, qmax,
      Affine.idA, Affine.apply, noLayer]
  have h := C5_margin_getters glyphA none 0 ⟨8, 0, 18, 20⟩ hb
  obtain ⟨h1, h2, h3, h4⟩ := h
  refine ⟨hb, h1, ?_, ?_, ?_⟩
  · rw [h2]; norm_num [glyphA]
  · rw [h3]; norm_num [glyphA]
  · rw [h4]; norm_num [glyphA]

/-- C2 (amended): setting a margin to its exact current value is a no-op for
`setLeftMargin`, `setRightMargin` and `setTopMargin`, and for
`setBottomMargin` when `verticalOrigin` is set; when `verticalOrigin` is
unset, `setBottomMargin` still materialises it at the current `height`
(width, height and all point coordinates stay unchanged in every case). -/
theorem C2_margin_setters_idempotent (g : Glyph) (layer : Option Layer) (fuel : Nat)
    (bb : BoundingBox) (h : g.getBounds layer fuel = .ok (some bb)) :
    g.setLeftMargin bb.xMin layer fuel = .ok g ∧
    g.setRightMargin (g.width - bb.xMax) layer fuel = .ok g ∧
    g.setTopMargin (g.verticalOrigin.getD g.height - bb.yMax) layer fuel = .ok g ∧
    (∀ vo, g.verticalOrigin = some vo →
      g.setBottomMargin (bb.yMin - (vo - g.height)) layer fuel = .ok g) ∧
    (g.verticalOrigin = none →
      g.setBottomMargin bb.yMin layer fuel =
        .ok { g with verticalOrigin := some g.height }) := by
  refine ⟨?_, ?_, ?_, ?_, ?_⟩
  · simp [Glyph.setLeftMargin, h]
  · simp only [Glyph.setRightMargin, h]
    have hw : bb.xMax + (g.width - bb.xMax) = g.width := by ring
    rw [hw]
  · simp only [Glyph.setTopMargin, h]
    cases hvo : g.verticalOrigin <;> simp [hvo, Option.getD]
  · intro vo hvo
    simp [Glyph.setBottomMargin, h, hvo]
  · intro hvo
    simp [Glyph.setBottomMargin, h, hvo]

theorem C2_margin_setters_witness :
    glyphA.setLeftMargin 8 none 0 = .ok glyphA ∧
    glyphA.setRightMargin 12 none 0 = .ok glyphA ∧
    glyphA.setTopMargin (-20) none 0 = .ok glyphA ∧
    glyphBtm.setBottomMargin 0 none 0 = .ok { glyphBtm with verticalOrigin := some 30 } := by
  have hb : glyphA.getBounds none 0 = .ok (some ⟨8, 0, 18, 20⟩) := by
    norm_num [glyphA, Glyph.getBounds, drawGlyph, drawComps, box, qmin, qmax,
      Affine.idA, Affine.apply, noLayer]
  have hB : glyphBtm.getBounds none 0 = .ok (some ⟨8, 0, 18, 12⟩) := by
    norm_num [glyphBtm, Glyph.getBounds, drawGlyph, drawComps, box, qmin, qmax,
      Affine.idA, Affine.apply, noLayer]
  have h := C2_margin_setters_idempotent glyphA none 0 ⟨8, 0, 18, 20⟩ hb
  have h2 := C2_margin_setters_idempotent glyphBtm none 0 ⟨8, 0, 18, 12⟩ hB
  refine ⟨h.1, ?_, ?_, ?_⟩
  · have e1 : glyphA.width - (⟨8, 0, 18, 20⟩ : BoundingBox).xMax = (12 : ℚ) := by
      norm_num [glyphA]
    rw [← e1]
    exact h.2.1
  · have e2 : glyphA.verticalOrigin.getD glyphA.height - (⟨8, 0, 18, 20⟩ : BoundingBox).yMax
        = (-20 : ℚ) := by
      norm_num [glyphA]
    rw [← e2]
    exact h.2.2.1
  · exact h2.2.2.2.2 rfl

/-- C2 counterexample: `glyphBtm` has bottom margin `0` and no vertical
origin; `setBottomMargin(0)` (the current value) still mutates the glyph by
setting `verticalOrigin` to the height, so the four setters are not all
no-ops at their current value. -/
theorem C2_margin_setters_cex :
    glyphBtm.getBottomMargin none 0 = .ok (some 0) ∧
    glyphBtm.verticalOrigin = none ∧
    glyphBtm.setBottomMargin 0 none 0 =
      .ok { glyphBtm with verticalOrigin := some 30 } ∧
    glyphBtm.setBottomMargin 0 none 0 ≠ .ok glyphBtm := by
  have hB : glyphBtm.getBounds none 0 = .ok (some ⟨8, 0, 18, 12⟩) := by
    norm_num [glyphBtm, Glyph.getBounds, drawGlyph, drawComps, box, qmin, qmax,
      Affine.idA, Affine.apply, noLayer]
  refine ⟨?_, rfl, ?_, ?_⟩
  · simp only [Glyph.getBottomMargin, hB]
    simp [glyphBtm]
  · simp only [Glyph.setBottomMargin, hB]
    norm_num [glyphBtm]
  · simp only [Glyph.setBottomMargin, hB]
    norm_num [glyphBtm]
    exact fun hh => Option.noConfusion hh

/-- C1 (amended): for `glyphA` (bounds `xMin=8, xMax=18`, `width=30`):
`getLeftMargin` is `8` and `getRightMargin` is `12`; `setLeftMargin(10)`
shifts every point and anchor by `+2` and yields `leftMargin 10`,
`width 32`; a subsequent `setRightMargin(10)` changes only the width — to
`30`, since the shifted `xMax` is now `20` — shifts no points, and leaves
`leftMargin` at `10`. -/
theorem C1_margin_scenario :
    glyphA.getLeftMargin none 0 = .ok (some 8) ∧
    glyphA.getRightMargin none 0 = .ok (some 12) ∧
    glyphA.setLeftMargin 10 none 0 = .ok glyphA2 ∧
    glyphA2.width = 32 ∧
    glyphA2.getLeftMargin none 0 = .ok (some 10) ∧
    glyphA2.setRightMargin 10 none 0 = .ok glyphA3 ∧
    glyphA3 = { glyphA2 with width := 30 } ∧
    glyphA3.contours = glyphA2.contours ∧
    glyphA3.anchors = glyphA2.anchors ∧
    glyphA3.getLeftMargin none 0 = .ok (some 10) := by
  have hb : glyphA.getBounds none 0 = .ok (some ⟨8, 0, 18, 20⟩) := by
    norm_num [glyphA, Glyph.getBounds, drawGlyph, drawComps, box, qmin, qmax,
      Affine.idA, Affine.apply, noLayer]
  have hb2 : glyphA2.getBounds none 0 = .ok (some ⟨10, 0, 20, 20⟩) := by
    norm_num [glyphA2, Glyph.getBounds, drawGlyph, drawComps, box, qmin, qmax,
      Affine.idA, Affine.apply, noLayer]
  have hb3 : glyphA3.getBounds none 0 = .ok (some ⟨10, 0, 20, 20⟩) := by
    norm_num [glyphA3, glyphA2, Glyph.getBounds, drawGlyph, drawComps, box, qmin, qmax,
      Affine.idA, Affine.apply, noLayer]
  refine ⟨?_, ?_, ?_, rfl, ?_, ?_, rfl, rfl, rfl, ?_⟩
  · simp [Glyph.getLeftMargin, hb]
  · simp only [Glyph.getRightMargin, hb]
    norm_num [glyphA]
  · simp only [Glyph.setLeftMargin, hb]
    norm_num [Glyph.move, glyphA, glyphA2]
  · simp [Glyph.getLeftMargin, hb2]
  · simp only [Glyph.setRightMargin, hb2]
    norm_num [glyphA2, glyphA3]
  · simp [Glyph.getLeftMargin, hb3]

/-- C1 counterexample: from the state reached by `setLeftMargin(10)` the
shifted bounds have `xMax = 20`, so `setRightMargin(10)` sets the width to
`20 + 10 = 30`, not `28` as claimed. -/
theorem C1_margin_scenario_cex :
    glyphA.setLeftMargin 10 none 0 = .ok glyphA2 ∧
    glyphA2.setRightMargin 10 none 0 = .ok glyphA3 ∧
    glyphA3.width = 30 ∧
    (30 : ℚ) ≠ 28 := by
  have hb : glyphA.getBounds none 0 = .ok (some ⟨8, 0, 18, 20⟩) := by
    norm_num [glyphA, Glyph.getBounds, drawGlyph, drawComps, box, qmin, qmax,
      Affine.idA, Affine.apply, noLayer]
  have hb2 : glyphA2.getBounds none 0 = .ok (some ⟨10, 0, 20, 20⟩) := by
    norm_num [glyphA2, Glyph.getBounds, drawGlyph, drawComps, box, qmin, qmax,
      Affine.idA, Affine.apply, noLayer]
  refine ⟨?_, ?_, rfl, by norm_num⟩
  · simp only [Glyph.setLeftMargin, hb]
    norm_num [Glyph.move, glyphA, glyphA2]
  · simp only [Glyph.setRightMargin, hb2]
    norm_num [glyphA2, glyphA3]

theorem getBounds_no_components (g : Glyph) (fuel : Nat) (hc : g.components = []) :
    g.getBounds none fuel =
      .ok (box (g.contours.flatMap (fun c => c.points.map (fun p => (p.x, p.y))))) := by
  unfold Glyph.getBounds
  rw [if_neg (by simp [hc])]
  simp only [Option.getD, drawGlyph, hc, drawComps, Affine.idA_apply, List.append_nil]

theorem getControlBounds_no_components (g : Glyph) (fuel : Nat) (hc : g.components = []) :
    g.getControlBounds none fuel =
      .ok (box (g.contours.flatMap (fun c => c.points.map (fun p => (p.x, p.y))))) := by
  unfold Glyph.getControlBounds
  rw [if_neg (by simp [hc])]
  simp only [Option.getD, drawGlyph, hc, drawComps, Affine.idA_apply, List.append_nil]

/-- C10: for every glyph without components, `getBounds` and
`getControlBounds` succeed with no layer supplied — the `layerRequired`
branch is unreachable — returning `none` when the glyph draws no points and
otherwise the box over the glyph's own contours (for `getBounds` stated on
outlines of on-curve points, where the two bounds flavours agree). -/
theorem C10_componentfree_bounds (g : Glyph) (fuel : Nat) (hc : g.components = []) :
    g.getControlBounds none fuel =
      .ok (box (g.contours.flatMap (fun c => c.points.map (fun p => (p.x, p.y))))) ∧
    (∃ r, g.getBounds none fuel = .ok r) ∧
    ((∀ c ∈ g.contours, c.points = []) →
      g.getBounds none fuel = .ok none ∧ g.getControlBounds none fuel = .ok none) ∧
    ((∀ c ∈ g.contours, ∀ p ∈ c.points, p.typ = 0 ∨ p.typ = 1) →
      g.getBounds none fuel =
        .ok (box (g.contours.flatMap (fun c => c.points.map (fun p => (p.x, p.y)))))) := by
  refine ⟨getControlBounds_no_components g fuel hc, ⟨_, getBounds_no_components g fuel hc⟩,
    ?_, fun _ => getBounds_no_components g fuel hc⟩
  intro hempty
  have hnil : g.contours.flatMap (fun c => c.points.map (fun p => ((p.x : ℚ), (p.y : ℚ)))) = [] := by
    rw [List.flatMap_eq_nil_iff]
    intro c hcmem
    rw [hempty c hcmem]
    rfl
  rw [getBounds_no_components g fuel hc, getControlBounds_no_components g fuel hc, hnil]
  exact ⟨rfl, rfl⟩

theorem C10_componentfree_bounds_witness :
    gEmpty.getBounds none 0 = .ok none ∧
    gEmpty.getControlBounds none 0 = .ok none ∧
    glyphA.getBounds none 0 = .ok (some ⟨8, 0, 18, 20⟩) := by
  have h1 := C10_componentfree_bounds gEmpty 0 rfl
  have h2 := C10_componentfree_bounds glyphA 0 rfl
  have he := h1.2.2.1 (by intro c hcmem; simp [gEmpty] at hcmem)
  refine ⟨he.1, he.2, ?_⟩
  have hs := h2.2.2.2 (by
    intro c hcmem p hp
    simp only [glyphA, List.mem_singleton] at hcmem
    subst hcmem
    simp only [List.mem_cons, List.not_mem_nil, or_false] at hp
    rcases hp with rfl | rfl | rfl | rfl <;> simp)
  rw [hs]
  norm_num [glyphA, box, qmin, qmax]

theorem drawGlyph_succ (fuel : Nat) (l : Layer) (t : Affine) (g : Glyph) :
    drawGlyph (fuel + 1) l t g =
      match drawComps (fun t2 g2 => drawGlyph fuel l t2 g2) l t g.components with
      | .error e => .error e
      | .ok cps =>
        .ok ((g.contours.flatMap (fun c => c.points.map (fun p => t.apply (p.x, p.y)))) ++ cps) :=
  rfl

/-- C3: a component's bounds — and likewise the bounds of a glyph whose
only geometry is components — require a layer (`layerRequired` when none is
supplied, for both bounds flavours); a layer that does not contain the base
glyph name fails with `missingGlyph(name)`; with the base glyph present,
the control bounds are the base glyph's control bounds carried through the
component's transform (stated for translations, as in the spec's example;
resolving the extra nesting level of a composite glyph consumes one unit of
recursion budget). -/
theorem C3_component_bounds (c : PyComponent) (fuel : Nat) :
    c.getBounds none fuel = .error .layerRequired ∧
    c.getControlBounds none fuel = .error .layerRequired ∧
    (∀ l : Layer, l.glyph c.base = none →
      c.getBounds (some l) fuel = .error (.missingGlyph c.base) ∧
      c.getControlBounds (some l) fuel = .error (.missingGlyph c.base)) ∧
    (∀ (l : Layer) (bg : Glyph) (dx dy : ℚ) (bb : BoundingBox),
      c.transformation = Affine.translation dx dy →
      l.glyph c.base = some bg →
      bg.getControlBounds (some l) fuel = .ok (some bb) →
      c.getControlBounds (some l) fuel = .ok (some (bb.translate dx dy))) ∧
    (∀ g : Glyph, g.components ≠ [] →
      g.getBounds none fuel = .error .layerRequired ∧
      g.getControlBounds none fuel = .error .layerRequired) ∧
    (∀ (g : Glyph) (l : Layer), g.components = [c] → l.glyph c.base = none →
      g.getBounds (some l) fuel = .error (.missingGlyph c.base) ∧
      g.getControlBounds (some l) fuel = .error (.missingGlyph c.base)) ∧
    (∀ (g : Glyph) (l : Layer) (bg : Glyph) (dx dy : ℚ) (bb : BoundingBox),
      g.contours = [] → g.components = [c] →
      c.transformation = Affine.translation dx dy →
      l.glyph c.base = some bg →
      bg.getControlBounds (some l) fuel = .ok (some bb) →
      g.getControlBounds (some l) (fuel + 1) = .ok (some (bb.translate dx dy))) := by
  refine ⟨rfl, rfl, ?_, ?_, ?_, ?_, ?_⟩
  · intro l h
    constructor
    · simp only [PyComponent.getBounds, drawComps_cons_none _ _ _ _ _ h]
    · simp only [PyComponent.getControlBounds, drawComps_cons_none _ _ _ _ _ h]
  · intro l bg dx dy bb htr hlk hbb
    simp only [Glyph.getControlBounds] at hbb
    rw [if_neg (by simp)] at hbb
    simp only [Option.getD] at hbb
    cases hdg : drawGlyph (fuel + 1) l Affine.idA bg with
    | error e => rw [hdg] at hbb; exact absurd hbb (by simp)
    | ok ps =>
      rw [hdg] at hbb
      simp only [Except.ok.injEq] at hbb
      simp only [PyComponent.getControlBounds, drawComps_cons_some _ _ _ _ _ _ hlk]
      rw [Affine.idA_comp, htr, drawGlyph_transform, hdg]
      simp only [Except.map, drawComps, List.append_nil]
      have hmap : ps.map (Affine.translation dx dy).apply =
          ps.map (fun p => (p.1 + dx, p.2 + dy)) :=
        List.map_congr_left (fun p _ => Affine.translation_apply dx dy p)
      rw [hmap, box_translate, hbb]
      rfl
  · intro g hg
    constructor
    · simp only [Glyph.getBounds]
      rw [if_pos (by simp [hg])]
    · simp only [Glyph.getControlBounds]
      rw [if_pos (by simp [hg])]
  · intro g l hgc hlk
    constructor
    · simp only [Glyph.getBounds]
      rw [if_neg (by simp)]
      simp only [Option.getD, drawGlyph]
      rw [hgc, drawComps_cons_none _ _ _ _ _ hlk]
    · simp only [Glyph.getControlBounds]
      rw [if_neg (by simp)]
      simp only [Option.getD, drawGlyph]
      rw [hgc, drawComps_cons_none _ _ _ _ _ hlk]
  · intro g l bg dx dy bb hcont hgc htr hlk hbb
    simp only [Glyph.getControlBounds] at hbb
    rw [if_neg (by simp)] at hbb
    simp only [Option.getD] at hbb
    cases hdg : drawGlyph (fuel + 1) l Affine.idA bg with
    | error e => rw [hdg] at hbb; exact absurd hbb (by simp)
    | ok ps =>
      rw [hdg] at hbb
      simp only [Except.ok.injEq] at hbb
      simp only [Glyph.getControlBounds]
      rw [if_neg (by simp)]
      simp only [Option.getD]
      rw [drawGlyph_succ]
      rw [hgc, drawComps_cons_some _ _ _ _ _ _ hlk, Affine.idA_comp, htr,
        drawGlyph_transform, hdg]
      simp only [Except.map, drawComps, List.append_nil]
      rw [hcont]
      simp only [List.flatMap_nil, List.nil_append]
      have hmap : ps.map (Affine.translation dx dy).apply =
          ps.map (fun p => (p.1 + dx, p.2 + dy)) :=
        List.map_congr_left (fun p _ => Affine.translation_apply dx dy p)
      rw [hmap, box_translate, hbb]
      rfl

theorem C3_component_bounds_witness :
    compB.getBounds none 0 = .error .layerRequired ∧
    compB.getControlBounds (some ⟨[]⟩) 0 = .error (.missingGlyph "a") ∧
    glyphBase.getControlBounds (some layerBase) 0 = .ok (some ⟨0, 0, 10, 20⟩) ∧
    compB.getControlBounds (some layerBase) 0 = .ok (some ⟨-50, 100, -40, 120⟩) ∧
    glyphB.getBounds none 0 = .error .layerRequired ∧
    glyphB.getBounds (some ⟨[]⟩) 0 = .error (.missingGlyph "a") ∧
    glyphB.getControlBounds (some layerBase) 1 = .ok (some ⟨-50, 100, -40, 120⟩) := by
  have h := C3_component_bounds compB 0
  have hbase : glyphBase.getControlBounds (some layerBase) 0 = .ok (some ⟨0, 0, 10, 20⟩) := by
    norm_num [glyphBase, layerBase, Glyph.getControlBounds, drawGlyph, drawComps, box,
      qmin, qmax, Affine.idA, Affine.apply, Option.getD]
  have hlk : layerBase.glyph compB.base = some glyphBase := by
    simp [layerBase, Layer.glyph, compB, glyphBase, List.find?]
  have htrans : ((⟨0, 0, 10, 20⟩ : BoundingBox).translate (-50) 100) =
      (⟨-50, 100, -40, 120⟩ : BoundingBox) := by
    norm_num [BoundingBox.translate]
  refine ⟨h.1, (h.2.2.1 ⟨[]⟩ rfl).2, hbase, ?_, ?_, ?_, ?_⟩
  · have hb := h.2.2.2.1 layerBase glyphBase (-50) 100 ⟨0, 0, 10, 20⟩ rfl hlk hbase
    rw [← htrans]
    exact hb
  · exact (h.2.2.2.2.1 glyphB (by simp [glyphB])).1
  · exact (h.2.2.2.2.2.1 glyphB ⟨[]⟩ rfl rfl).1
  · have hb := h.2.2.2.2.2.2 glyphB layerBase glyphBase (-50) 100 ⟨0, 0, 10, 20⟩
      rfl rfl rfl hlk hbase
    rw [← htrans]
    exact hb

theorem drawGlyph_cyc (fuel : Nat) :
    ∀ t : Affine, drawGlyph fuel layerCyc t glyphCyc = .error .fuelExhausted := by
  induction fuel with
  | zero => intro t; rfl
  | succ n ih =>
    intro t
    have hlk : layerCyc.glyph "a" = some glyphCyc := by
      simp [layerCyc, Layer.glyph, glyphCyc, List.find?]
    have hcomp : glyphCyc.components = [⟨"a", Affine.idA⟩] := rfl
    simp only [drawGlyph, hcomp]
    rw [drawComps_cons_some _ _ _ _ _ _ hlk]
    rw [ih]

/-- C8 (amended): the code has no cycle detection — on a glyph that reaches
itself through its components, bounds computation never fails with a
`CyclicComponentReference`; the recursion simply never terminates (for
every recursion-depth budget it runs out of fuel; in Python this surfaces
as a `RecursionError`). -/
theorem C8_cyclic_unbounded (fuel : Nat) :
    glyphCyc.getBounds (some layerCyc) fuel = .error .fuelExhausted ∧
    glyphCyc.getControlBounds (some layerCyc) fuel = .error .fuelExhausted := by
  constructor
  · simp only [Glyph.getBounds]
    rw [if_neg (by simp)]
    simp only [Option.getD]
    rw [drawGlyph_cyc (fuel + 1) Affine.idA]
  · simp only [Glyph.getControlBounds]
    rw [if_neg (by simp)]
    simp only [Option.getD]
    rw [drawGlyph_cyc (fuel + 1) Affine.idA]

/-- C8 counterexample: at the concrete cyclic input the computation (here
with depth budget 5, and by `C8_cyclic_unbounded` at every budget) exhausts
its recursion budget instead of producing `CyclicComponentReference`. -/
theorem C8_cyclic_cex :
    glyphCyc.getBounds (some layerCyc) 5 = .error .fuelExhausted ∧
    glyphCyc.getBounds (some layerCyc) 5 ≠ .error .cyclicComponentReference ∧
    GeomError.fuelExhausted ≠ GeomError.cyclicComponentReference := by
  have hb : glyphCyc.getBounds (some layerCyc) 5 = .error .fuelExhausted := by
    simp only [Glyph.getBounds]
    rw [if_neg (by simp)]
    simp only [Option.getD]
    rw [drawGlyph_cyc 6 Affine.idA]
  refine ⟨hb, ?_, by decide⟩
  rw [hb]
  intro hh
  exact absurd (Except.error.inj hh) (by decide)

theorem encodeSegmentType_unknown (s : String) (h1 : s ≠ "move") (h2 : s ≠ "line")
    (h3 : s ≠ "curve") (h4 : s ≠ "qcurve") :
    encodeSegmentType (some s) = .error (.invalidSegmentKind s) := by
  unfold encodeSegmentType
  split <;> simp_all

/-- C4 (amended): `Point` construction and the point pen's `addPoint` accept
exactly the kinds `move`, `line`, `curve`, `qcurve` and the absent kind
`None` (which is how an off-curve point is passed); any other kind —
including the literal string `"offcurve"` — fails with
`InvalidSegmentKind`. -/
theorem C4_segment_kinds (k : Option String) (x y : ℚ) (pt : ℚ × ℚ) (sm : Bool)
    (st : List PyPoint) :
    ((k = some "move" ∨ k = some "line" ∨ k = none ∨ k = some "curve" ∨ k = some "qcurve") →
      (∃ p, Point.create x y k sm = .ok p) ∧
      (∃ ps, GlyphPointPen.addPoint st pt k sm = .ok ps)) ∧
    (∀ s, k = some s → s ≠ "move" → s ≠ "line" → s ≠ "curve" → s ≠ "qcurve" →
      Point.create x y k sm = .error (.invalidSegmentKind s) ∧
      GlyphPointPen.addPoint st pt k sm = .error (.invalidSegmentKind s)) := by
  constructor
  · rintro (rfl | rfl | rfl | rfl | rfl) <;> exact ⟨⟨_, rfl⟩, ⟨_, rfl⟩⟩
  · rintro s rfl h1 h2 h3 h4
    have he := encodeSegmentType_unknown s h1 h2 h3 h4
    exact ⟨by simp [Point.create, he], by simp [GlyphPointPen.addPoint, he]⟩

/-- C4 counterexample: the literal kind `"offcurve"` is not accepted — the
code expects `None` for off-curve points, so `"offcurve"` hits the
unknown-kind branch. -/
theorem C4_offcurve_cex :
    Point.create 0 0 (some "offcurve") false = .error (.invalidSegmentKind "offcurve") ∧
    GlyphPointPen.addPoint [] (0, 0) (some "offcurve") false =
      .error (.invalidSegmentKind "offcurve") := by
  exact ⟨rfl, rfl⟩

theorem C4_segment_kinds_witness :
    (∃ p, Point.create 1 2 (some "move") false = .ok p) ∧
    (∃ ps, GlyphPointPen.addPoint [] (3, 4) none false = .ok ps) ∧
    Point.create 1 2 (some "zzz") false = .error (.invalidSegmentKind "zzz") := by
  have h1 := C4_segment_kinds (some "move") 1 2 (1, 2) false []
  have h2 := C4_segment_kinds none 3 4 (3, 4) false []
  have h3 := C4_segment_kinds (some "zzz") 1 2 (1, 2) false []
  exact ⟨(h1.1 (Or.inl rfl)).1, (h2.1 (Or.inr (Or.inr (Or.inl rfl)))).2,
    (h3.2 "zzz" rfl (by decide) (by decide) (by decide) (by decide)).1⟩

/-- C6: `renameGlyph(old, new, overwrite)` is a successful no-op when
`old == new`; otherwise it fails with `GlyphNotFound` when `old` names no
glyph in the layer, and with `GlyphNameCollision` when `new` is present and
`overwrite` is false. -/
theorem C6_renameGlyph (l : Layer) (old nw : String) (ow : Bool) :
    (old = nw → l.renameGlyph old nw ow = .ok l) ∧
    (old ≠ nw → l.containsName old = false →
      l.renameGlyph old nw ow = .error (.glyphNotFound old)) ∧
    (old ≠ nw → l.containsName old = true → l.containsName nw = true → ow = false →
      l.renameGlyph old nw ow = .error (.glyphNameCollision nw)) := by
  refine ⟨?_, ?_, ?_⟩
  · intro h
    simp [Layer.renameGlyph, h]
  · intro hne hno
    simp [Layer.renameGlyph, Layer.rename_glyph, hne, hno]
  · intro hne hyes hnew how
    simp [Layer.renameGlyph, Layer.rename_glyph, hne, hyes, hnew, how]

theorem C6_renameGlyph_witness :
    layerAB.renameGlyph "a" "a" false = .ok layerAB ∧
    layerAB.renameGlyph "x" "y" false = .error (.glyphNotFound "x") ∧
    layerAB.renameGlyph "b" "a" false = .error (.glyphNameCollision "a") := by
  have h1 := C6_renameGlyph layerAB "a" "a" false
  have h2 := C6_renameGlyph layerAB "x" "y" false
  have h3 := C6_renameGlyph layerAB "b" "a" false
  exact ⟨h1.1 rfl, h2.2.1 (by decide) (by decide),
    h3.2.2 (by decide) (by decide) (by decide) rfl⟩

theorem lookupId_append (a b : List (Nat × Bag)) (n : Nat) :
    lookupId (a ++ b) n =
      match lookupId a n with
      | some x => some x
      | none => lookupId b n := by
  induction a with
  | nil => rfl
  | cons e rest ih =>
    simp only [List.cons_append, lookupId]
    by_cases h : e.1 = n
    · simp [h]
    · simp [h, ih]

theorem lookupId_map_update (tbl : List (Nat × Bag)) (n : Nat) (k : String) (v : Nat) :
    lookupId (tbl.map (fun e => if e.1 = n then (e.1, insertKV e.2 k v) else e)) n =
      (lookupId tbl n).map (fun b => insertKV b k v) := by
  induction tbl with
  | nil => rfl
  | cons e rest ih =>
    simp only [List.map_cons]
    by_cases h : e.1 = n
    · simp [lookupId, h]
    · simp [lookupId, h, ih]

theorem lookupKey_insertKV (bag : Bag) (k : String) (v : Nat) :
    lookupKey (insertKV bag k v) k = some v := by
  induction bag with
  | nil => simp [insertKV, lookupKey]
  | cons e rest ih =>
    simp only [insertKV]
    by_cases h : e.1 = k
    · simp [h, lookupKey]
    · simp [h, lookupKey, ih]

theorem objectLibTouch_ready (f : LibFont) (i : Nat) (hi : i < f.entities.length) :
    ∃ ent2 n bag,
      (f.objectLibTouch i).entities[i]? = some ent2 ∧
      ent2.identifier = some n ∧
      lookupId (f.objectLibTouch i).objectLibs n = some bag := by
  have hsome : f.entities[i]? = some f.entities[i] := List.getElem?_eq_getElem hi
  cases hid : f.entities[i].identifier with
  | some n =>
    cases hOk : lookupId f.objectLibs n with
    | some bag =>
      refine ⟨f.entities[i], n, bag, ?_, hid, ?_⟩ <;>
        simp [LibFont.objectLibTouch, hsome, hid, hOk]
    | none =>
      refine ⟨f.entities[i], n, [], ?_, hid, ?_⟩
      · simp [LibFont.objectLibTouch, hsome, hid, hOk]
      · simp only [LibFont.objectLibTouch, hsome, hid, hOk, Option.isSome_none,
          Bool.false_eq_true, if_false]
        rw [lookupId_append, hOk]
        simp [lookupId]
  | none =>
    cases hOk : lookupId f.objectLibs f.nextId with
    | some b0 =>
      refine ⟨{ f.entities[i] with identifier := some f.nextId }, f.nextId, b0, ?_, rfl, ?_⟩
      · simp only [LibFont.objectLibTouch, hsome, hid]
        exact List.getElem?_set_eq_of_lt _ hi
      · simp only [LibFont.objectLibTouch, hsome, hid]
        rw [lookupId_append, hOk]
    | none =>
      refine ⟨{ f.entities[i] with identifier := some f.nextId }, f.nextId, [], ?_, rfl, ?_⟩
      · simp only [LibFont.objectLibTouch, hsome, hid]
        exact List.getElem?_set_eq_of_lt _ hi
      · simp only [LibFont.objectLibTouch, hsome, hid]
        rw [lookupId_append, hOk]
        simp [lookupId]

theorem objectLibGet_put (f : LibFont) (i : Nat) (k : String) (v : Nat)
    (hi : i < f.entities.length) :
    (f.objectLibPut i k v).objectLibGet i k = some v := by
  obtain ⟨ent2, n, bag, hent, hid, hbag⟩ := objectLibTouch_ready f i hi
  unfold LibFont.objectLibPut
  rw [hent]
  simp only [hid]
  unfold LibFont.objectLibGet
  simp only [hent, hid]
  rw [lookupId_map_update _ _ k v, hbag]
  simp [lookupKey_insertKV]

/-- C7: deep-copying a font yields a structurally equal font (`f == g`);
any in-place mutation of the copy is invisible through the original
reference and vice versa; and an object-lib entry attached through the
copy's `objectLib` lands in the copy's own table (readable there under the
copied object's identifier) while the original font is bit-for-bit
unchanged. -/
theorem C7_deepcopy_independence (s : FontStore) (i : Nat) (hi : i < s.length) :
    ((deepcopyFont s i).1.fontAt (deepcopyFont s i).2 = s.fontAt i) ∧
    (∀ f : LibFont → LibFont,
      (updateFont (deepcopyFont s i).1 (deepcopyFont s i).2 f).fontAt i = s.fontAt i) ∧
    (∀ f : LibFont → LibFont,
      (updateFont (deepcopyFont s i).1 i f).fontAt (deepcopyFont s i).2 = s.fontAt i) ∧
    (∀ (e : Nat) (k : String) (v : Nat), e < (s.fontAt i).entities.length →
      ((updateFont (deepcopyFont s i).1 (deepcopyFont s i).2
          (fun fo => fo.objectLibPut e k v)).fontAt (deepcopyFont s i).2).objectLibGet e k
        = some v ∧
      (updateFont (deepcopyFont s i).1 (deepcopyFont s i).2
          (fun fo => fo.objectLibPut e k v)).fontAt i = s.fontAt i) := by
  have hne : s.length ≠ i := (Nat.ne_of_lt hi).symm
  have hcopy : (deepcopyFont s i).1.fontAt (deepcopyFont s i).2 = s.fontAt i := by
    simp [deepcopyFont, FontStore.fontAt, List.getD, List.get?_eq_getElem?]
  have hupd : ∀ f : LibFont → LibFont,
      (updateFont (deepcopyFont s i).1 (deepcopyFont s i).2 f).fontAt i = s.fontAt i := by
    intro f
    simp only [deepcopyFont, updateFont, FontStore.fontAt, List.getD, List.get?_eq_getElem?]
    rw [List.getElem?_set_ne hne]
    simp [List.getElem?_append, hi]
  have hupd2 : ∀ f : LibFont → LibFont,
      (updateFont (deepcopyFont s i).1 i f).fontAt (deepcopyFont s i).2 = s.fontAt i := by
    intro f
    simp only [deepcopyFont, updateFont, FontStore.fontAt, List.getD, List.get?_eq_getElem?]
    rw [List.getElem?_set_ne (Nat.ne_of_lt hi)]
    simp
  have hat : ∀ f : LibFont → LibFont,
      (updateFont (deepcopyFont s i).1 (deepcopyFont s i).2 f).fontAt (deepcopyFont s i).2
        = f (s.fontAt i) := by
    intro f
    simp only [deepcopyFont, updateFont, FontStore.fontAt, List.getD, List.get?_eq_getElem?]
    rw [List.getElem?_set_eq_of_lt]
    · simp
    · simp
  refine ⟨hcopy, hupd, hupd2, ?_⟩
  intro e k v he
  refine ⟨?_, hupd _⟩
  rw [hat (fun fo => fo.objectLibPut e k v)]
  exact objectLibGet_put _ e k v he

theorem C7_deepcopy_witness :
    ((deepcopyFont storeW 0).1.fontAt (deepcopyFont storeW 0).2 = fontW) ∧
    ((updateFont (deepcopyFont storeW 0).1 (deepcopyFont storeW 0).2
        (fun fo => fo.objectLibPut 0 "com.test.bar" 9)).fontAt 0 = fontW) ∧
    (((updateFont (deepcopyFont storeW 0).1 (deepcopyFont storeW 0).2
        (fun fo => fo.objectLibPut 0 "com.test.bar" 9)).fontAt
          (deepcopyFont storeW 0).2).objectLibGet 0 "com.test.bar" = some 9) := by
  have h := C7_deepcopy_independence storeW 0 (by decide)
  have hfw : storeW.fontAt 0 = fontW := rfl
  exact ⟨h.1.trans hfw, (h.2.1 _).trans hfw, (h.2.2.2 0 "com.test.bar" 9 (by decide)).1⟩

/-- C9 (amended): the persisted form round-trips the font unchanged
provided every object-lib table entry is a nonempty bag belonging to a live
identifier; in general `save` omits empty-bag (and orphaned) entries from
the persisted table while the owning objects keep their identifiers, so a
font holding an empty entry reloads without it. -/
theorem C9_roundtrip (f : LibFont)
    (hwf : ∀ e ∈ f.objectLibs, e.2 ≠ [] ∧ ∃ ent ∈ f.entities, ent.identifier = some e.1) :
    loadFont f.save = f ∧
    (∀ g : LibFont, (g.save).entities = g.entities ∧ ∀ e ∈ (g.save).objectLibs, e.2 ≠ []) := by
  constructor
  · unfold loadFont LibFont.save
    cases f with
    | mk ents libs nid =>
      simp only [LibFont.mk.injEq, and_true, true_and]
      apply List.filter_eq_self.mpr
      intro e he
      obtain ⟨hne, ent, hmem, hident⟩ := hwf e he
      simp only [Bool.and_eq_true, Bool.not_eq_true']
      constructor
      · simpa using hne
      · exact List.any_eq_true.mpr ⟨ent, hmem, by simp [hident]⟩
  · intro g
    refine ⟨rfl, ?_⟩
    intro e he
    unfold LibFont.save at he
    simp only [List.mem_filter, Bool.and_eq_true, Bool.not_eq_true'] at he
    have hne := he.2.1
    simpa using hne

/-- C9 counterexample: a font whose table holds the empty bag of the object
with identifier `7` does not survive `load ∘ save` unchanged — the entry is
pruned — even though the object itself keeps identifier `7`. -/
theorem C9_roundtrip_cex :
    loadFont fontEmptyBag.save ≠ fontEmptyBag ∧
    fontEmptyBag.objectLibs = [(7, [])] ∧
    (loadFont fontEmptyBag.save).objectLibs = [] ∧
    (loadFont fontEmptyBag.save).entities = [⟨5, some 7⟩] := by
  refine ⟨?_, rfl, ?_, ?_⟩
  · intro hh
    have := congrArg LibFont.objectLibs hh
    simp [loadFont, LibFont.save, fontEmptyBag, List.filter] at this
  · simp [loadFont, LibFont.save, fontEmptyBag, List.filter]
  · rfl

theorem C9_roundtrip_witness :
    loadFont fontW.save = fontW ∧
    (fontW.save).entities = fontW.entities ∧
    (∀ e ∈ (fontW.save).objectLibs, e.2 ≠ []) := by
  have h := C9_roundtrip fontW (by
    intro e he
    simp only [fontW, List.mem_singleton] at he
    subst he
    refine ⟨by simp, ⟨5, some 7⟩, by simp [fontW], rfl⟩)
  exact ⟨h.1, (h.2 fontW).1, (h.2 fontW).2⟩
